import Mathlib

/-!
A verification development for the `vape`/`vase` repository.

The Python sources are shallowly embedded:

* `ped_file.py` (the pedigree data model): `Individual`, `Family`, and the
  PED parser `_parse_ped`, with Python exceptions modelled as an explicit
  error type returned through `Except`.
* the `VariantCache` / `CachedVariant` classes of both `vase_runner.py` and
  `vape_runner.py`, together with the cache-driving runner methods
  `output_cache` and `finish_up` of `VaseRunner`.
* the inheritance-filter initialisation logic of `VaseRunner.__init__`
  (`_get_de_novo_filter`, `_get_recessive_filter`, `_get_dominant_filter`,
  `_check_got_inherit_filter`).

Python dictionaries are modelled as insertion-ordered association lists,
Python sets as `Finset String`, and Python exceptions as `Except` values.
-/

/-! ## Python string helpers (`str.rstrip`, `str.split`, `int(...)`) -/

/-- Python's `str.rstrip()`: remove trailing whitespace characters. -/
def pyRstrip (s : String) : String :=
  ⟨(s.toList.reverse.dropWhile (fun c => c.isWhitespace)).reverse⟩

/-- Python's `str.split()` with no argument: split on runs of whitespace,
discarding empty fields. -/
def pySplit (s : String) : List String :=
  ((s.toList.splitOnP (fun c => c.isWhitespace)).filter
      (fun l => ¬ l.isEmpty)).map (fun l => ⟨l⟩)

/-- Interpret a list of characters as a decimal numeral
(all characters must be digits and the list must be nonempty). -/
def parseDigits (cs : List Char) : Option Nat :=
  if cs.isEmpty then none
  else if cs.all (fun c => c.isDigit) then
    some (cs.foldl (fun a c => a * 10 + (c.toNat - '0'.toNat)) 0)
  else none

/-- Python's `int(str)` on the common numeral forms: optional surrounding
whitespace, an optional sign, then decimal digits.  `none` models the
`ValueError` raised on any other input. -/
def pyInt (s : String) : Option Int :=
  let cs := (s.toList.dropWhile (fun c => c.isWhitespace)).reverse.dropWhile
      (fun c => c.isWhitespace) |>.reverse
  match cs with
  | '-' :: rest => (parseDigits rest).map (fun n => -(n : Int))
  | '+' :: rest => (parseDigits rest).map (fun n => (n : Int))
  | rest => (parseDigits rest).map (fun n => (n : Int))

/-! ## `ped_file.py`: `Individual` -/

/-- An element of the (dynamically typed) `siblings` / `half_siblings` /
`children` lists of a Python `Individual`.  `Family.add_individual` appends
plain individual-id strings (`id`), while `Individual.__init__` appends the
whole constructor argument as a single element (`arg`). -/
inductive SibVal where
  | id (iid : String)
  | arg (val : List String)
  deriving DecidableEq, Repr

/-- The `Individual` class of `ped_file.py` (attribute record). -/
structure Individual where
  fid : String
  iid : String
  father : String
  mother : String
  sex : Int
  phenotype : Int
  siblings : List SibVal
  half_siblings : List SibVal
  children : List SibVal
  deriving DecidableEq, Repr

/-- Python exceptions raised by `ped_file.py` (and by `int(...)` inside
`Individual.__init__`). -/
inductive PedFileError where
  /-- the plain `Exception` raised by `_parse_ped` for a line with fewer
  than six columns -/
  | notEnoughFields (line : String)
  /-- the `PedError` raised by `_parse_ped` for an individual ID already
  seen anywhere in the file -/
  | duplicateIndividualId (iid : String)
  /-- the `PedError` raised by `Family.add_individual` for an individual ID
  already present in the family -/
  | duplicateInFamily (iid : String) (fid : String)
  /-- the `ValueError` propagated from `int(phenotype)` in
  `Individual.__init__` -/
  | valueError (s : String)
  deriving DecidableEq, Repr

/-- `Individual.__init__`.  `int(sex)` falls back to `0` on `ValueError`;
`int(phenotype)` is unguarded, so its `ValueError` propagates.  A truthy
(`non-empty`) `siblings` / `half_siblings` / `children` argument is
`append`ed whole as a single element of the corresponding fresh list. -/
def Individual.init (fid iid father mother sex phenotype : String)
    (siblings : List String := []) (half_siblings : List String := [])
    (children : List String := []) : Except PedFileError Individual :=
  match pyInt phenotype with
  | none => .error (.valueError phenotype)
  | some ph =>
      .ok { fid := fid, iid := iid, father := father, mother := mother,
            sex := (pyInt sex).getD 0,
            phenotype := ph,
            siblings := if siblings.isEmpty then [] else [.arg siblings],
            half_siblings :=
              if half_siblings.isEmpty then [] else [.arg half_siblings],
            children := if children.isEmpty then [] else [.arg children] }

def Individual.is_affected (i : Individual) : Bool := i.phenotype = 2

def Individual.is_unaffected (i : Individual) : Bool := i.phenotype = 1

def Individual.is_unknown_phenotype (i : Individual) : Bool :=
  i.phenotype ≠ 1 ∧ i.phenotype ≠ 2

def Individual.is_male (i : Individual) : Bool := i.sex = 1

def Individual.is_female (i : Individual) : Bool := i.sex = 2

def Individual.is_unknown_gender (i : Individual) : Bool :=
  i.sex ≠ 1 ∧ i.sex ≠ 2

/-! ## `ped_file.py`: `Family` and `PedFile._parse_ped`

Python dicts are insertion-ordered association lists: assignment to an
existing key replaces the value in place, assignment to a new key appends. -/

/-- Dict lookup. -/
def lookupA {α : Type} (l : List (String × α)) (k : String) : Option α :=
  match l.find? (fun p => p.1 = k) with
  | some p => some p.2
  | none => none

/-- Dict assignment to a key already present: replace in place. -/
def updateA {α : Type} (l : List (String × α)) (k : String) (v : α) :
    List (String × α) :=
  l.map (fun p => if p.1 = k then (k, v) else p)

/-- The `Family` class of `ped_file.py` (attribute record). -/
structure Family where
  fid : String
  individuals : List (String × Individual)
  parents : List (String × List String)
  founder : Option String
  deriving DecidableEq, Repr

/-- `Family.__init__` with `individuals=None`. -/
def Family.mkEmpty (fid : String) : Family :=
  { fid := fid, individuals := [], parents := [], founder := none }

/-- Full-sibling test of `Family.add_individual`: shared non-`'0'` mother
and shared non-`'0'` father. -/
def sibCond (i ind : Individual) : Bool :=
  i.mother ≠ "0" ∧ i.mother = ind.mother ∧ i.father ≠ "0" ∧ i.father = ind.father

/-- Half-sibling test of `Family.add_individual` (the `elif` branch):
a shared non-`'0'` mother or a shared non-`'0'` father. -/
def halfCond (i ind : Individual) : Bool :=
  (i.mother ≠ "0" ∧ i.mother = ind.mother) ∨
    (i.father ≠ "0" ∧ i.father = ind.father)

/-- The first loop of `Family.add_individual`
(`for i in self.individuals.values(): ...`): every existing member is
compared against the incoming individual and the (half-)sibling lists of
both sides are appended to. -/
def sibPass : List (String × Individual) → Individual →
    List (String × Individual) × Individual
  | [], ind => ([], ind)
  | p :: rest, ind =>
    let i := p.2
    if sibCond i ind then
      let r := sibPass rest
        { ind with siblings := ind.siblings ++ [.id i.iid] }
      ((p.1, { i with siblings := i.siblings ++ [.id ind.iid] }) :: r.1, r.2)
    else if halfCond i ind then
      let r := sibPass rest
        { ind with half_siblings := ind.half_siblings ++ [.id i.iid] }
      ((p.1, { i with half_siblings := i.half_siblings ++ [.id ind.iid] })
          :: r.1, r.2)
    else
      let r := sibPass rest ind
      (p :: r.1, r.2)

/-- One iteration of the second loop of `Family.add_individual`
(`for parent in [individual.mother, individual.father]: ...`): register the
new individual as a child of `parent` and refresh the `children` attribute
of `parent` if it is itself a member. -/
def addParentStep
    (st : List (String × Individual) × List (String × List String))
    (parent : String) (iid : String) :
    List (String × Individual) × List (String × List String) :=
  if parent = "0" then st
  else
    let ps := match lookupA st.2 parent with
      | none => st.2 ++ [(parent, [iid])]
      | some l => updateA st.2 parent (l ++ [iid])
    let inds := match lookupA st.1 parent with
      | none => st.1
      | some pi =>
          updateA st.1 parent
            { pi with children := ((lookupA ps parent).getD []).map .id }
    (inds, ps)

/-- `Family.add_individual`.  Raises (`PedError`) on a duplicate individual
ID, reassigns the individual's family ID, recomputes sibling/half-sibling
relationships against all existing members, updates the `parents` mapping
and `children` attributes, and finally inserts the individual. -/
def Family.add_individual (fam : Family) (individual : Individual) :
    Except PedFileError Family :=
  if (lookupA fam.individuals individual.iid).isSome then
    .error (.duplicateInFamily individual.iid fam.fid)
  else
    let r := sibPass fam.individuals { individual with fid := fam.fid }
    let st1 := addParentStep (r.1, fam.parents) r.2.mother r.2.iid
    let st2 := addParentStep st1 r.2.father r.2.iid
    let ind1 := match lookupA st2.2 r.2.iid with
      | some l => { r.2 with children := l.map .id }
      | none => r.2
    .ok { fam with individuals := st2.1 ++ [(ind1.iid, ind1)],
                   parents := st2.2 }

/-- `Family.__init__` with an initial list of individuals: each is passed
through `add_individual`. -/
def Family.initList (fid : String) (inds : List Individual) :
    Except PedFileError Family :=
  inds.foldlM (fun f i => f.add_individual i) (Family.mkEmpty fid)

/-- The per-file state built by `PedFile._parse_ped`: the `families` and
`individuals` dicts of the `PedFile` object. -/
structure PedFileData where
  families : List (String × Family)
  individuals : List (String × Individual)
  deriving DecidableEq, Repr

/-- Python's `line.startswith('#')`: the first character is `'#'`. -/
def pyStartsWithHash (s : String) : Bool := s.toList.head? = some '#'

/-- One iteration of the `for line in fh` loop of `PedFile._parse_ped`:
skip comments and blanks, split into columns, require at least six fields,
build the `Individual`, reject duplicate individual IDs, and insert into
the per-file and per-family tables.  Exception propagation out of
`Individual.__init__` and `Family.add_individual` is written as explicit
matches on the `Except` value. -/
def parsePedLine (st : PedFileData) (line : String) :
    Except PedFileError PedFileData :=
  let l := pyRstrip line
  if pyStartsWithHash l then .ok st
  else if l = "" then .ok st
  else
    let cols := pySplit l
    if cols.length < 6 then .error (.notEnoughFields l)
    else
      match Individual.init (cols.getD 0 "") (cols.getD 1 "")
          (cols.getD 2 "") (cols.getD 3 "") (cols.getD 4 "")
          (cols.getD 5 "") with
      | .error e => .error e
      | .ok indv =>
        if (lookupA st.individuals indv.iid).isSome then
          .error (.duplicateIndividualId indv.iid)
        else
          let individuals := st.individuals ++ [(indv.iid, indv)]
          match lookupA st.families indv.fid with
          | some fam =>
              match fam.add_individual indv with
              | .error e => .error e
              | .ok fam' =>
                  .ok { families := updateA st.families indv.fid fam',
                        individuals := individuals }
          | none =>
              match Family.initList indv.fid [indv] with
              | .error e => .error e
              | .ok fam' =>
                  .ok { families := st.families ++ [(indv.fid, fam')],
                        individuals := individuals }

/-- `PedFile._parse_ped`: fold `parsePedLine` over the lines of the file. -/
def parsePed (lines : List String) : Except PedFileError PedFileData :=
  lines.foldlM parsePedLine { families := [], individuals := [] }


/-! ## Verification helpers for `Family.add_individual` -/

/-- The net effect of one iteration of the sibling loop on an existing
member: append the new individual's ID to its sibling list (full-sibling
test), else to its half-sibling list (half-sibling test), else leave it
unchanged. -/
def updIndiv (i ind : Individual) : Individual :=
  if sibCond i ind then { i with siblings := i.siblings ++ [.id ind.iid] }
  else if halfCond i ind then
    { i with half_siblings := i.half_siblings ++ [.id ind.iid] }
  else i

/-- The projection of a member entry to everything the sibling
bookkeeping can observe (key, identifiers, parent IDs and the two sibling
lists); the parent/children bookkeeping of `add_individual` leaves this
view unchanged. -/
def sibView (p : String × Individual) :
    String × String × String × String × String × List SibVal ×
      List SibVal :=
  (p.1, p.2.iid, p.2.fid, p.2.mother, p.2.father, p.2.siblings,
    p.2.half_siblings)

/-- The invariant maintained by `Family.add_individual` on the members
table: keys agree with individual IDs, family IDs agree with `fid`,
individual IDs are distinct, every sibling/half-sibling entry is the ID
of some member, and both relations are symmetric. -/
def FamInvL (fid : String) (l : List (String × Individual)) : Prop :=
  (∀ p ∈ l, p.1 = p.2.iid) ∧
  (∀ p ∈ l, p.2.fid = fid) ∧
  (l.map (fun p => p.2.iid)).Nodup ∧
  (∀ p ∈ l, ∀ e ∈ p.2.siblings, ∃ q ∈ l, e = SibVal.id q.2.iid) ∧
  (∀ p ∈ l, ∀ e ∈ p.2.half_siblings, ∃ q ∈ l, e = SibVal.id q.2.iid) ∧
  (∀ p ∈ l, ∀ q ∈ l,
    (SibVal.id p.2.iid ∈ q.2.siblings ↔ SibVal.id q.2.iid ∈ p.2.siblings)) ∧
  (∀ p ∈ l, ∀ q ∈ l,
    (SibVal.id p.2.iid ∈ q.2.half_siblings ↔
      SibVal.id q.2.iid ∈ p.2.half_siblings))

/-- The member-table invariant for a whole family. -/
def FamInv (fam : Family) : Prop := FamInvL fam.fid fam.individuals

/-! ## Shared model of a VCF record (`parse_vcf` collaborator)

Only the fields the cache logic reads: coordinates/alleles (for the
variant identifier) and the VEP `CSQ` annotation entries, of which only
the `Feature` value is consulted. -/

/-- One entry of `record.CSQ`; the cache reads `x['Feature']`. -/
structure CsqEntry where
  Feature : String
  deriving DecidableEq, Repr

/-- A variant record as consumed by the cache. -/
structure VcfRecord where
  CHROM : String
  POS : Int
  REF : String
  ALT : String
  CSQ : List CsqEntry
  deriving DecidableEq, Repr

/-- `set([x['Feature'] for x in record.CSQ])`. -/
def recordFeats (r : VcfRecord) : Finset String :=
  (r.CSQ.map (fun x => x.Feature)).toFinset

namespace Vase

/-- The `CachedVariant` class of `vase_runner.py`. -/
structure CachedVariant where
  record : VcfRecord
  can_output : Bool
  var_id : String
  deriving DecidableEq, Repr

/-- `CachedVariant.__init__`: store the record and flag and build the
stable variant identifier `"{}:{}-{}/{}"`. -/
def CachedVariant.init (record : VcfRecord) (can_output : Bool := false) :
    CachedVariant :=
  { record := record, can_output := can_output,
    var_id := record.CHROM ++ ":" ++ toString record.POS ++ "-" ++
      record.REF ++ "/" ++ record.ALT }

/-- The `VariantCache` class of `vase_runner.py`.  `cache` and
`output_ready` hold `CachedVariant` objects; each is paired with a `Nat`
tag modelling Python object identity (each `add_record` call constructs a
fresh `CachedVariant` object, numbered here by `nextTag`). -/
structure VariantCache where
  cache : List (Nat × CachedVariant)
  features : Finset String
  output_ready : List (Nat × CachedVariant)
  nextTag : Nat
  deriving DecidableEq

/-- `VariantCache.__init__`. -/
def VariantCache.init : VariantCache :=
  { cache := [], features := ∅, output_ready := [], nextTag := 0 }

/-- `VariantCache.add_cache_to_output_ready`: extend `output_ready` with
the cache contents and clear the cache. -/
def VariantCache.add_cache_to_output_ready (vc : VariantCache) :
    VariantCache :=
  { vc with output_ready := vc.output_ready ++ vc.cache, cache := [] }

/-- `VariantCache.check_record`: if the record's features are disjoint
from a truthy (non-empty) active feature set, move the cache to
`output_ready` and clear the feature set; the record itself is never
added. -/
def VariantCache.check_record (vc : VariantCache) (record : VcfRecord) :
    VariantCache :=
  let these_feats := recordFeats record
  if vc.features ≠ ∅ ∧ these_feats ∩ vc.features = ∅ then
    { vc.add_cache_to_output_ready with features := ∅ }
  else vc

/-- `VariantCache.add_record`: on a window close (non-empty active set
disjoint from the record's features) move the cache to `output_ready` and
reset the active set to the record's features, otherwise extend the
active set by union; in both cases append the new `CachedVariant`. -/
def VariantCache.add_record (vc : VariantCache) (record : VcfRecord)
    (can_output : Bool := false) : VariantCache :=
  let these_feats := recordFeats record
  let vc' :=
    if vc.features ≠ ∅ ∧ these_feats ∩ vc.features = ∅ then
      { vc.add_cache_to_output_ready with features := these_feats }
    else
      { vc with features := vc.features ∪ these_feats }
  { vc' with
      cache := vc'.cache ++ [(vc'.nextTag, CachedVariant.init record can_output)],
      nextTag := vc'.nextTag + 1 }

/-- The inheritance checkers as `VaseRunner.output_cache` sees them: for
each checker that is not `None`, the list of variant identifiers (dict
keys) returned by its resolution call (`process_potential_recessives` /
`process_dominants` / `process_de_novos`, given the `final` flag).  Those
methods live in `family_filter.py`, which is not among this repository's
sources, so their results are abstract inputs here. -/
structure Checkers where
  recessive : Option (Bool → List String)
  dominant : Option (Bool → List String)
  de_novo : Option (Bool → List String)

/-- The `keep_ids` set accumulated by `VaseRunner.output_cache`: the
recessive resolution always contributes when the filter exists; dominant
and de novo resolutions contribute only when `args.min_families > 1`. -/
def keepIds (ck : Checkers) (min_families : Int) (final : Bool) :
    Finset String :=
  (match ck.recessive with
   | some f => (f final).toFinset
   | none => ∅) ∪
  (match ck.dominant with
   | some f => if min_families > 1 then (f final).toFinset else ∅
   | none => ∅) ∪
  (match ck.de_novo with
   | some f => if min_families > 1 then (f final).toFinset else ∅
   | none => ∅)

/-- The slice of `VaseRunner` state that the caching logic touches.
`out` is the list of records written to the output stream, and
`resolved` is a history variable recording every output-ready entry whose
fate was settled by a flush (written out or counted as filtered); in the
Python these leave the program through `self.out.write` or the
`var_filtered` counter. -/
structure RunnerState where
  variant_cache : VariantCache
  var_written : Nat
  var_filtered : Nat
  out : List VcfRecord
  resolved : List (Nat × CachedVariant)

/-- The runner state at the start of `run()`. -/
def RunnerState.init : RunnerState :=
  { variant_cache := VariantCache.init, var_written := 0, var_filtered := 0,
    out := [], resolved := [] }

/-- The `for var in self.variant_cache.output_ready` loop of
`VaseRunner.output_cache`: write the record and bump `var_written` when
`var.can_output or var.var_id in keep_ids`, else bump `var_filtered`. -/
def outputReadyLoop (keep_ids : Finset String) (st : RunnerState)
    (ready : List (Nat × CachedVariant)) : RunnerState :=
  ready.foldl
    (fun acc v =>
      if v.2.can_output = true ∨ v.2.var_id ∈ keep_ids then
        { acc with out := acc.out ++ [v.2.record],
                   var_written := acc.var_written + 1 }
      else { acc with var_filtered := acc.var_filtered + 1 })
    st

/-- `VaseRunner.output_cache`: build `keep_ids` from the active checkers,
drain the cache into `output_ready` first when `final`, run the output
loop, and empty `output_ready`.  (The burden counter is an out-of-scope
collaborator.) -/
def output_cache (ck : Checkers) (min_families : Int) (st : RunnerState)
    (final : Bool := false) : RunnerState :=
  let keep_ids := keepIds ck min_families final
  let vc := if final then st.variant_cache.add_cache_to_output_ready
            else st.variant_cache
  let st1 := outputReadyLoop keep_ids { st with variant_cache := vc }
    vc.output_ready
  { st1 with
      variant_cache := { st1.variant_cache with output_ready := [] },
      resolved := st1.resolved ++ vc.output_ready }

/-- `VaseRunner.finish_up`: when the cache is in use, flush it in `final`
mode.  (Burden-counter output and report-file closing are out-of-scope
collaborators.) -/
def finish_up (use_cache : Bool) (ck : Checkers) (min_families : Int)
    (st : RunnerState) : RunnerState :=
  if use_cache then output_cache ck min_families st true else st

/-- The cache-affecting operations the `VaseRunner.process_record` /
`finish_up` drivers can perform on the runner state. -/
inductive CacheOp where
  | add (record : VcfRecord) (can_output : Bool)
  | check (record : VcfRecord)
  | flush (final : Bool)

/-- Apply one cache operation to the runner state. -/
def stepOp (ck : Checkers) (min_families : Int) (st : RunnerState) :
    CacheOp → RunnerState
  | .add r co => { st with variant_cache := st.variant_cache.add_record r co }
  | .check r => { st with variant_cache := st.variant_cache.check_record r }
  | .flush f => output_cache ck min_families st f

/-- Run a sequence of cache operations from the initial runner state. -/
def runOps (ck : Checkers) (min_families : Int) (ops : List CacheOp) :
    RunnerState :=
  ops.foldl (stepOp ck min_families) RunnerState.init

/-- The tagged `CachedVariant` objects the `add` operations of a trace
construct, starting from tag `n`. -/
def addsFrom (n : Nat) : List CacheOp → List (Nat × CachedVariant)
  | [] => []
  | .add r co :: rest => (n, CachedVariant.init r co) :: addsFrom (n + 1) rest
  | .check _ :: rest => addsFrom n rest
  | .flush _ :: rest => addsFrom n rest

/-- All tagged `CachedVariant` objects a trace constructs. -/
def addsOf (ops : List CacheOp) : List (Nat × CachedVariant) :=
  addsFrom 0 ops

end Vase

namespace Vape

/-- The `CachedVariant` class of `vape_runner.py` (also stores the
per-allele and per-consequence ignore masks). -/
structure CachedVariant where
  record : VcfRecord
  can_output : Bool
  ignore_alleles : List Bool
  ignore_csq : List Bool
  var_id : String
  deriving DecidableEq, Repr

/-- `CachedVariant.__init__` of `vape_runner.py`. -/
def CachedVariant.init (record : VcfRecord)
    (ignore_alleles : List Bool := []) (ignore_csq : List Bool := [])
    (can_output : Bool := false) : CachedVariant :=
  { record := record, can_output := can_output,
    ignore_alleles := ignore_alleles, ignore_csq := ignore_csq,
    var_id := record.CHROM ++ ":" ++ toString record.POS ++ "-" ++
      record.REF ++ "/" ++ record.ALT }

/-- The `VariantCache` class of `vape_runner.py`. -/
structure VariantCache where
  cache : List CachedVariant
  features : Finset String
  output_ready : List CachedVariant
  deriving DecidableEq

/-- `VariantCache.__init__` of `vape_runner.py`. -/
def VariantCache.init : VariantCache :=
  { cache := [], features := ∅, output_ready := [] }

/-- `VariantCache.add_record` of `vape_runner.py`: on a window close the
cache *becomes* the `output_ready` list (assignment, not extension) and
the active set is reset; otherwise the active set is extended by union;
in both cases the new `CachedVariant` is appended to the cache. -/
def VariantCache.add_record (vc : VariantCache) (record : VcfRecord)
    (ignore_alleles : List Bool := []) (ignore_csq : List Bool := [])
    (can_output : Bool := false) : VariantCache :=
  let these_feats := recordFeats record
  let vc' :=
    if vc.features ≠ ∅ ∧ these_feats ∩ vc.features = ∅ then
      { output_ready := vc.cache, cache := [], features := these_feats }
    else
      { vc with features := vc.features ∪ these_feats }
  { vc' with cache := vc'.cache ++
      [CachedVariant.init record ignore_alleles ignore_csq can_output] }

end Vape

namespace VaseInit

/-- The command-line arguments consulted by the inheritance-filter
construction in `VaseRunner.__init__`.  The two singleton options are
sample lists; only their truthiness (non-emptiness) matters here. -/
structure Args where
  de_novo : Bool
  biallelic : Bool
  dominant : Bool
  singleton_recessive : Bool
  singleton_dominant : Bool
  deriving DecidableEq, Repr

/-- The exceptions the filter-construction code can raise. -/
inductive InitError where
  /-- `_get_de_novo_filter`: no samples fit a de novo model -/
  | noDeNovoSamples
  /-- `_get_recessive_filter`: no samples fit a recessive model -/
  | noRecessiveSamples
  /-- `_get_dominant_filter`: no samples fit a dominant model -/
  | noDominantSamples
  /-- `_check_got_inherit_filter`: no inheritance filters could be created -/
  | noInheritanceFilters
  deriving DecidableEq, Repr

/-- `de_novo` filtering is requested iff `args.de_novo` (line
`if args.de_novo:` of `__init__`). -/
def deNovoRequested (a : Args) : Bool := a.de_novo

/-- recessive filtering is requested iff `args.biallelic or
args.singleton_recessive` (line of `__init__`). -/
def recessiveRequested (a : Args) : Bool :=
  a.biallelic || a.singleton_recessive

/-- dominant filtering is requested iff `args.dominant or
args.singleton_dominant` (line of `__init__`). -/
def dominantRequested (a : Args) : Bool :=
  a.dominant || a.singleton_dominant

/-- `_get_de_novo_filter`, abstracted over whether the constructed
`DeNovoFilter`'s `affected` eligible-sample list is non-empty (that list
is computed by `family_filter.py`, which is outside this repository's
sources).  Returns whether `self.de_novo_filter` ends up set. -/
def getDeNovoFilter (args : Args) (affected : Bool) :
    Except InitError Bool :=
  if !affected then
    if !args.biallelic && !args.dominant then .error .noDeNovoSamples
    else .ok false
  else .ok true

/-- `_get_recessive_filter`, abstracted like `getDeNovoFilter`. -/
def getRecessiveFilter (args : Args) (affected : Bool) :
    Except InitError Bool :=
  if !affected then
    if !args.de_novo && !args.dominant then .error .noRecessiveSamples
    else .ok false
  else .ok true

/-- `_get_dominant_filter`, abstracted like `getDeNovoFilter`. -/
def getDominantFilter (args : Args) (affected : Bool) :
    Except InitError Bool :=
  if !affected then
    if !args.biallelic && !args.de_novo then .error .noDominantSamples
    else .ok false
  else .ok true

/-- The inheritance-filter construction portion of `VaseRunner.__init__`
(in source order: de novo, then recessive, then dominant) followed by
`_check_got_inherit_filter`.  Returns which of the three filters ended up
set.  All of this runs before the first record is read. -/
def initInheritanceFilters (args : Args) (dnAff recAff domAff : Bool) :
    Except InitError (Bool × Bool × Bool) :=
  match (if args.de_novo then getDeNovoFilter args dnAff
         else .ok false : Except InitError Bool) with
  | .error e => .error e
  | .ok dn =>
    match (if args.biallelic || args.singleton_recessive then
            getRecessiveFilter args recAff
           else .ok false : Except InitError Bool) with
    | .error e => .error e
    | .ok rcv =>
      match (if args.dominant || args.singleton_dominant then
              getDominantFilter args domAff
             else .ok false : Except InitError Bool) with
      | .error e => .error e
      | .ok dom =>
        if (args.de_novo || args.biallelic || args.dominant) &&
            !rcv && !dn && !dom then
          .error .noInheritanceFilters
        else .ok (dn, rcv, dom)

end VaseInit

/-! ## Concrete values used by witnesses -/

/-- The individual produced by `Individual('f1', 'kid', '0', '0', '1', '-9')`. -/
def c9Ind : Individual :=
  { fid := "f1", iid := "kid", father := "0", mother := "0", sex := 1,
    phenotype := -9, siblings := [], half_siblings := [], children := [] }

/-- The individual produced by
`Individual('f1', 'kid', '0', '0', '1', '2', ['a', 'b'])`. -/
def c10Ind : Individual :=
  { fid := "f1", iid := "kid", father := "0", mother := "0", sex := 1,
    phenotype := 2, siblings := [.arg ["a", "b"]], half_siblings := [],
    children := [] }

/-- The individual parsed from the PED line `f1 kid 0 0 1 2`. -/
def c6Ind : Individual :=
  { fid := "f1", iid := "kid", father := "0", mother := "0", sex := 1,
    phenotype := 2, siblings := [], half_siblings := [], children := [] }

/-- The individual parsed from the PED line `f2 kid 0 0 2 1`. -/
def c6Ind2 : Individual :=
  { fid := "f2", iid := "kid", father := "0", mother := "0", sex := 2,
    phenotype := 1, siblings := [], half_siblings := [], children := [] }

/-- The family built while parsing the PED line `f1 kid 0 0 1 2`. -/
def c6Fam : Family :=
  { fid := "f1", individuals := [("kid", c6Ind)], parents := [],
    founder := none }

/-- The parser state after the single PED line `f1 kid 0 0 1 2`. -/
def c6St : PedFileData :=
  { families := [("f1", c6Fam)], individuals := [("kid", c6Ind)] }

/-- A record annotated to feature `g1`. -/
def recG1 : VcfRecord :=
  { CHROM := "1", POS := 100, REF := "A", ALT := "T",
    CSQ := [{ Feature := "g1" }] }

/-- A record annotated to feature `g2` (disjoint from `g1`). -/
def recG2 : VcfRecord :=
  { CHROM := "1", POS := 200, REF := "C", ALT := "G",
    CSQ := [{ Feature := "g2" }] }

/-- A record annotated to features `g1` and `g3` (overlapping `g1`). -/
def recG13 : VcfRecord :=
  { CHROM := "1", POS := 150, REF := "G", ALT := "C",
    CSQ := [{ Feature := "g1" }, { Feature := "g3" }] }

/-- A vase cache holding one record of feature `g1`. -/
def vcG1 : Vase.VariantCache := Vase.VariantCache.init.add_record recG1

/-- A vape cache holding one record of feature `g1`. -/
def vpG1 : Vape.VariantCache := Vape.VariantCache.init.add_record recG1

/-- C8 witness: an individual `a` with parents `F` and `M`. -/
def c8A : Individual :=
  { fid := "f1", iid := "a", father := "F", mother := "M", sex := 1,
    phenotype := 2, siblings := [], half_siblings := [], children := [] }

/-- C8 witness: an individual `b` with the same two parents as `a`. -/
def c8B : Individual :=
  { fid := "f1", iid := "b", father := "F", mother := "M", sex := 2,
    phenotype := 1, siblings := [], half_siblings := [], children := [] }

/-- C8 witness: an individual `c` sharing only the father `F`. -/
def c8C : Individual :=
  { fid := "f1", iid := "c", father := "F", mother := "X", sex := 1,
    phenotype := 2, siblings := [], half_siblings := [], children := [] }

/-- `a` as stored after `Family('f1', [a, b, c])`. -/
def c8AFin : Individual :=
  { c8A with siblings := [.id "b"], half_siblings := [.id "c"] }

/-- `b` as stored after `Family('f1', [a, b, c])`. -/
def c8BFin : Individual :=
  { c8B with siblings := [.id "a"], half_siblings := [.id "c"] }

/-- `c` as stored after `Family('f1', [a, b, c])`. -/
def c8CFin : Individual :=
  { c8C with half_siblings := [.id "a", .id "b"] }

/-- The family produced by `Family('f1', [a, b, c])`. -/
def c8Fam : Family :=
  { fid := "f1",
    individuals := [("a", c8AFin), ("b", c8BFin), ("c", c8CFin)],
    parents := [("M", ["a", "b"]), ("F", ["a", "b", "c"]), ("X", ["c"])],
    founder := none }

/-! ## Claims C9, C10, C6 -/

/-- C9: Constructing an `Individual` maps sex code `'1'` to male, `'2'` to
female and any other sex code to unknown, and maps phenotype code `1` to
unaffected, `2` to affected, and any other phenotype code (including `0`
and `-9`) to unknown, as observed through
`is_male`/`is_female`/`is_unknown_gender` and
`is_affected`/`is_unaffected`/`is_unknown_phenotype`. -/
theorem C9_sex_phenotype_codes (fid iid father mother sex phenotype : String)
    (ind : Individual)
    (h : Individual.init fid iid father mother sex phenotype = .ok ind) :
    (ind.is_male = true ↔ pyInt sex = some 1) ∧
    (ind.is_female = true ↔ pyInt sex = some 2) ∧
    (ind.is_unknown_gender = true ↔
      (pyInt sex ≠ some 1 ∧ pyInt sex ≠ some 2)) ∧
    (ind.is_affected = true ↔ pyInt phenotype = some 2) ∧
    (ind.is_unaffected = true ↔ pyInt phenotype = some 1) ∧
    (ind.is_unknown_phenotype = true ↔
      (pyInt phenotype ≠ some 1 ∧ pyInt phenotype ≠ some 2)) := by
  unfold Individual.init at h
  cases hp : pyInt phenotype with
  | none => rw [hp] at h; exact absurd h (by simp)
  | some ph =>
    rw [hp] at h
    have hind : _ = ind := Except.ok.inj h
    subst hind
    refine ⟨?_, ?_, ?_, ?_, ?_, ?_⟩ <;>
      simp only [Individual.is_male, Individual.is_female,
        Individual.is_unknown_gender, Individual.is_affected,
        Individual.is_unaffected, Individual.is_unknown_phenotype,
        decide_eq_true_eq] <;>
      cases hs : pyInt sex <;> simp_all

/-- Witness for C9 at concrete codes: sex `'1'` is male, and phenotype
`'-9'` is an unknown phenotype. -/
theorem C9_witness :
    Individual.init "f1" "kid" "0" "0" "1" "-9" = .ok c9Ind ∧
    c9Ind.is_male = true ∧ c9Ind.is_unknown_phenotype = true := by
  refine ⟨rfl, ?_, ?_⟩
  · exact ((C9_sex_phenotype_codes "f1" "kid" "0" "0" "1" "-9" c9Ind
      rfl).1).mpr (by decide)
  · exact ((C9_sex_phenotype_codes "f1" "kid" "0" "0" "1" "-9" c9Ind
      rfl).2.2.2.2.2).mpr (by decide)

/-- C10: a non-empty `siblings` / `half_siblings` / `children` constructor
argument is appended whole, giving a one-element list whose single element
is the passed argument itself, while an empty (or omitted) argument leaves
the corresponding attribute a fresh empty list. -/
theorem C10_constructor_appends_list_args
    (fid iid father mother sex phenotype : String)
    (siblings half_siblings children : List String) (ind : Individual)
    (h : Individual.init fid iid father mother sex phenotype
        siblings half_siblings children = .ok ind) :
    (siblings ≠ [] → ind.siblings = [.arg siblings]) ∧
    (siblings = [] → ind.siblings = []) ∧
    (half_siblings ≠ [] → ind.half_siblings = [.arg half_siblings]) ∧
    (half_siblings = [] → ind.half_siblings = []) ∧
    (children ≠ [] → ind.children = [.arg children]) ∧
    (children = [] → ind.children = []) := by
  unfold Individual.init at h
  cases hp : pyInt phenotype with
  | none => rw [hp] at h; exact absurd h (by simp)
  | some ph =>
    rw [hp] at h
    have hind : _ = ind := Except.ok.inj h
    subst hind
    refine ⟨fun hs => ?_, fun hs => ?_, fun hs => ?_, fun hs => ?_,
      fun hs => ?_, fun hs => ?_⟩ <;> simp [hs]

/-- Witness for C10 at a concrete construction: a two-id sibling argument
ends up as one element, and empty arguments give `[]`. -/
theorem C10_witness :
    Individual.init "f1" "kid" "0" "0" "1" "2" ["a", "b"] [] [] =
      .ok c10Ind ∧
    c10Ind.siblings = [.arg ["a", "b"]] ∧ c10Ind.half_siblings = [] ∧
    c10Ind.children = [] := by
  refine ⟨rfl, ?_, ?_, ?_⟩
  · exact (C10_constructor_appends_list_args "f1" "kid" "0" "0" "1" "2"
      ["a", "b"] [] [] c10Ind rfl).1 (by decide)
  · exact (C10_constructor_appends_list_args "f1" "kid" "0" "0" "1" "2"
      ["a", "b"] [] [] c10Ind rfl).2.2.2.1 rfl
  · exact (C10_constructor_appends_list_args "f1" "kid" "0" "0" "1" "2"
      ["a", "b"] [] [] c10Ind rfl).2.2.2.2.2 rfl

/-- C6: parsing raises on a non-comment, non-blank line with fewer than six
whitespace-delimited columns; raises on an individual ID repeating one
already parsed anywhere in the file; and `Family.add_individual` raises
when the individual's ID already exists in that family. -/
theorem C6_ped_error_conditions :
    (∀ (st : PedFileData) (line : String),
      pyStartsWithHash (pyRstrip line) = false → pyRstrip line ≠ "" →
      (pySplit (pyRstrip line)).length < 6 →
      parsePedLine st line = .error (.notEnoughFields (pyRstrip line))) ∧
    (∀ (st : PedFileData) (line : String) (ind : Individual),
      pyStartsWithHash (pyRstrip line) = false → pyRstrip line ≠ "" →
      ¬ (pySplit (pyRstrip line)).length < 6 →
      Individual.init ((pySplit (pyRstrip line)).getD 0 "")
          ((pySplit (pyRstrip line)).getD 1 "")
          ((pySplit (pyRstrip line)).getD 2 "")
          ((pySplit (pyRstrip line)).getD 3 "")
          ((pySplit (pyRstrip line)).getD 4 "")
          ((pySplit (pyRstrip line)).getD 5 "") = .ok ind →
      (lookupA st.individuals ind.iid).isSome = true →
      parsePedLine st line = .error (.duplicateIndividualId ind.iid)) ∧
    (∀ (fam : Family) (ind : Individual),
      (lookupA fam.individuals ind.iid).isSome = true →
      fam.add_individual ind = .error (.duplicateInFamily ind.iid fam.fid)) := by
  refine ⟨?_, ?_, ?_⟩
  · intro st line h1 h2 h3
    simp [parsePedLine, h1, h2, h3]
  · intro st line ind h1 h2 h3 h4 h5
    simp only [parsePedLine, h1, h2, h3, h4, h5]
    simp [h2, h5]
  · intro fam ind h
    simp [Family.add_individual, h]

/-- Witness for C6 at concrete inputs: a four-column line, a line repeating
individual ID `kid`, and a duplicate in-family insertion all error out. -/
theorem C6_witness :
    (parsePedLine { families := [], individuals := [] } "f1 kid 0 0" =
      .error (.notEnoughFields "f1 kid 0 0")) ∧
    (parsePedLine c6St "f2 kid 0 0 2 1" =
      .error (.duplicateIndividualId "kid")) ∧
    (c6Fam.add_individual c6Ind2 =
      .error (.duplicateInFamily "kid" "f1")) := by
  refine ⟨?_, ?_, ?_⟩
  · exact C6_ped_error_conditions.1 _ _ (by decide) (by decide) (by decide)
  · exact C6_ped_error_conditions.2.1 c6St "f2 kid 0 0 2 1" c6Ind2
      (by decide) (by decide) (by decide) (by rfl) (by rfl)
  · exact C6_ped_error_conditions.2.2 c6Fam c6Ind2 (by rfl)

/-! ## Claims C1 and C5: the cache windowing rule -/

/-- C1: for every record added via `add_record` (in both the vase and the
vape implementation): if the record's feature set is disjoint from a
non-empty active feature set, all currently cached records move to the
output-ready list, the active set is reset to exactly the new record's
features, and the new record starts the next cache window; otherwise the
record is appended to the cache and the active set becomes the union of
itself and the record's features. -/
theorem C1_add_record_windowing (vc : Vase.VariantCache)
    (vp : Vape.VariantCache) (r : VcfRecord) (co : Bool)
    (ia ic : List Bool) :
    (vc.features ≠ ∅ → recordFeats r ∩ vc.features = ∅ →
      (vc.add_record r co).output_ready = vc.output_ready ++ vc.cache ∧
      (vc.add_record r co).features = recordFeats r ∧
      (vc.add_record r co).cache =
        [(vc.nextTag, Vase.CachedVariant.init r co)]) ∧
    (¬ (vc.features ≠ ∅ ∧ recordFeats r ∩ vc.features = ∅) →
      (vc.add_record r co).cache =
        vc.cache ++ [(vc.nextTag, Vase.CachedVariant.init r co)] ∧
      (vc.add_record r co).features = vc.features ∪ recordFeats r ∧
      (vc.add_record r co).output_ready = vc.output_ready) ∧
    (vp.features ≠ ∅ → recordFeats r ∩ vp.features = ∅ →
      (vp.add_record r ia ic co).output_ready = vp.cache ∧
      (vp.add_record r ia ic co).features = recordFeats r ∧
      (vp.add_record r ia ic co).cache =
        [Vape.CachedVariant.init r ia ic co]) ∧
    (¬ (vp.features ≠ ∅ ∧ recordFeats r ∩ vp.features = ∅) →
      (vp.add_record r ia ic co).cache =
        vp.cache ++ [Vape.CachedVariant.init r ia ic co] ∧
      (vp.add_record r ia ic co).features = vp.features ∪ recordFeats r ∧
      (vp.add_record r ia ic co).output_ready = vp.output_ready) := by
  refine ⟨fun h1 h2 => ?_, fun h => ?_, fun h1 h2 => ?_, fun h => ?_⟩
  · simp [Vase.VariantCache.add_record,
      Vase.VariantCache.add_cache_to_output_ready, h1, h2]
  · simp [Vase.VariantCache.add_record,
      Vase.VariantCache.add_cache_to_output_ready, h]
  · simp [Vape.VariantCache.add_record, h1, h2]
  · simp [Vape.VariantCache.add_record, h]

/-- Witness for C1 at concrete caches: a `g2` record closes a `g1` window
(both implementations), and a `g1`/`g3` record joins it instead. -/
theorem C1_witness :
    ((vcG1.add_record recG2).output_ready =
        [(0, Vase.CachedVariant.init recG1)] ∧
      (vcG1.add_record recG2).features = recordFeats recG2 ∧
      (vcG1.add_record recG2).cache =
        [(1, Vase.CachedVariant.init recG2)]) ∧
    ((vcG1.add_record recG13).cache =
        [(0, Vase.CachedVariant.init recG1),
         (1, Vase.CachedVariant.init recG13)] ∧
      (vcG1.add_record recG13).features = vcG1.features ∪ recordFeats recG13 ∧
      (vcG1.add_record recG13).output_ready = []) ∧
    ((vpG1.add_record recG2).output_ready = [Vape.CachedVariant.init recG1] ∧
      (vpG1.add_record recG2).cache = [Vape.CachedVariant.init recG2]) ∧
    ((vpG1.add_record recG13).cache =
        [Vape.CachedVariant.init recG1, Vape.CachedVariant.init recG13] ∧
      (vpG1.add_record recG13).output_ready = []) := by
  have h1 := (C1_add_record_windowing vcG1 vpG1 recG2 false [] []).1
    (by decide) (by decide)
  have h2 := (C1_add_record_windowing vcG1 vpG1 recG13 false [] []).2.1
    (by decide)
  have h3 := (C1_add_record_windowing vcG1 vpG1 recG2 false [] []).2.2.1
    (by decide) (by decide)
  have h4 := (C1_add_record_windowing vcG1 vpG1 recG13 false [] []).2.2.2
    (by decide)
  refine ⟨⟨h1.1.trans (by decide), h1.2.1, h1.2.2.trans (by decide)⟩,
    ⟨h2.1.trans (by decide), h2.2.1, h2.2.2.trans (by decide)⟩,
    ⟨h3.1.trans (by decide), h3.2.2.trans (by decide)⟩,
    ⟨h4.1.trans (by decide), h4.2.2.trans (by decide)⟩⟩

/-- C5: `check_record` never adds the record to the cache (no new
`CachedVariant` is constructed: the tag counter is unchanged); if the
record's features are disjoint from the non-empty active set, all cached
records move to the output-ready list, and otherwise the state is
entirely unchanged. -/
theorem C5_check_record_flushes_without_caching (vc : Vase.VariantCache)
    (r : VcfRecord) :
    (vc.check_record r).nextTag = vc.nextTag ∧
    (vc.features ≠ ∅ → recordFeats r ∩ vc.features = ∅ →
      (vc.check_record r).output_ready = vc.output_ready ++ vc.cache ∧
      (vc.check_record r).cache = []) ∧
    (¬ (vc.features ≠ ∅ ∧ recordFeats r ∩ vc.features = ∅) →
      vc.check_record r = vc) := by
  refine ⟨?_, fun h1 h2 => ?_, fun h => ?_⟩
  · by_cases h : vc.features ≠ ∅ ∧ recordFeats r ∩ vc.features = ∅
    · simp [Vase.VariantCache.check_record,
        Vase.VariantCache.add_cache_to_output_ready, h]
    · simp [Vase.VariantCache.check_record, h]
  · simp [Vase.VariantCache.check_record,
      Vase.VariantCache.add_cache_to_output_ready, h1, h2]
  · simp [Vase.VariantCache.check_record, h]

/-- Witness for C5 at concrete caches: a `g2` record triggers the flush
of a `g1` window without being cached; a `g1`/`g3` record changes
nothing. -/
theorem C5_witness :
    (vcG1.check_record recG2).nextTag = vcG1.nextTag ∧
    (vcG1.check_record recG2).output_ready =
      [(0, Vase.CachedVariant.init recG1)] ∧
    (vcG1.check_record recG2).cache = [] ∧
    vcG1.check_record recG13 = vcG1 := by
  have h1 := (C5_check_record_flushes_without_caching vcG1 recG2).1
  have h2 := (C5_check_record_flushes_without_caching vcG1 recG2).2.1
    (by decide) (by decide)
  have h3 := (C5_check_record_flushes_without_caching vcG1 recG13).2.2
    (by decide)
  exact ⟨h1, h2.1.trans (by decide), h2.2, h3⟩

/-! ## Claims C3 and C4: `output_cache` and `finish_up` -/

/-- Characterisation of the `for var in self.variant_cache.output_ready`
loop: kept entries (can-output flag set, or identifier in `keep_ids`) are
written in order, the rest are counted as filtered; nothing else in the
state changes. -/
theorem outputReadyLoop_spec (keep : Finset String)
    (ready : List (Nat × Vase.CachedVariant)) (st : Vase.RunnerState) :
    Vase.outputReadyLoop keep st ready =
      { st with
        out := st.out ++ (ready.filter (fun v =>
          v.2.can_output || decide (v.2.var_id ∈ keep))).map
            (fun v => v.2.record),
        var_written := st.var_written + (ready.filter (fun v =>
          v.2.can_output || decide (v.2.var_id ∈ keep))).length,
        var_filtered := st.var_filtered + (ready.filter (fun v =>
          !(v.2.can_output || decide (v.2.var_id ∈ keep)))).length } := by
  induction ready generalizing st with
  | nil => simp [Vase.outputReadyLoop]
  | cons v rest ih =>
    unfold Vase.outputReadyLoop at ih ⊢
    by_cases h : v.2.can_output = true ∨ v.2.var_id ∈ keep
    · have hb : (v.2.can_output || decide (v.2.var_id ∈ keep)) = true := by
        rcases h with h | h <;> simp [h]
      simp only [List.foldl_cons, if_pos h, ih, List.filter_cons, hb]
      simp [List.append_assoc]
      omega
    · have hb : (v.2.can_output || decide (v.2.var_id ∈ keep)) = false := by
        push_neg at h
        simp [h.1, h.2]
      simp only [List.foldl_cons, if_neg h, ih, List.filter_cons, hb]
      simp
      omega

/-- C3: at every cache flush (`output_cache`), an output-ready record is
written to the output stream iff its can-output flag is set or its
variant identifier is in the pass-set `keepIds` (recessive resolution
always; dominant and de novo only when `min_families > 1`); every other
output-ready record is counted as filtered; and the output-ready list is
emptied afterwards. -/
theorem C3_output_cache_emission (ck : Vase.Checkers) (mf : Int)
    (st : Vase.RunnerState) (final : Bool) :
    (Vase.output_cache ck mf st final).out = st.out ++
      (((if final then st.variant_cache.add_cache_to_output_ready
          else st.variant_cache).output_ready).filter (fun v =>
        v.2.can_output ||
          decide (v.2.var_id ∈ Vase.keepIds ck mf final))).map
        (fun v => v.2.record) ∧
    (Vase.output_cache ck mf st final).var_written = st.var_written +
      (((if final then st.variant_cache.add_cache_to_output_ready
          else st.variant_cache).output_ready).filter (fun v =>
        v.2.can_output ||
          decide (v.2.var_id ∈ Vase.keepIds ck mf final))).length ∧
    (Vase.output_cache ck mf st final).var_filtered = st.var_filtered +
      (((if final then st.variant_cache.add_cache_to_output_ready
          else st.variant_cache).output_ready).filter (fun v =>
        !(v.2.can_output ||
          decide (v.2.var_id ∈ Vase.keepIds ck mf final)))).length ∧
    (Vase.output_cache ck mf st final).variant_cache.output_ready = [] := by
  cases final <;>
    simp [Vase.output_cache, outputReadyLoop_spec]

/-- C4: at stream end with the cache in use, `finish_up` first moves every
record still cached into the output-ready list regardless of window
state, resolves the checkers in `final` mode (the pass-set is
`keepIds ck mf true`), settles every one of those records (they all land
in `resolved`, i.e. each is either written or counted as filtered), and
fully drains the cache: afterwards both `cache` and `output_ready` are
empty. -/
theorem C4_finish_up_drains_cache (ck : Vase.Checkers) (mf : Int)
    (st : Vase.RunnerState) :
    (Vase.finish_up true ck mf st).variant_cache.cache = [] ∧
    (Vase.finish_up true ck mf st).variant_cache.output_ready = [] ∧
    (Vase.finish_up true ck mf st).out = st.out ++
      ((st.variant_cache.output_ready ++ st.variant_cache.cache).filter
        (fun v => v.2.can_output ||
          decide (v.2.var_id ∈ Vase.keepIds ck mf true))).map
        (fun v => v.2.record) ∧
    (Vase.finish_up true ck mf st).resolved = st.resolved ++
      (st.variant_cache.output_ready ++ st.variant_cache.cache) := by
  simp [Vase.finish_up, Vase.output_cache, outputReadyLoop_spec,
    Vase.VariantCache.add_cache_to_output_ready]

/-! ## Claim C2: no cached record is ever lost -/

/-- Each cache operation preserves the sequence of tagged records that are
settled (`resolved`), pending output (`output_ready`) or cached, except
that an `add` appends exactly the one entry it constructs; only `add`
advances the object counter. -/
theorem stepOp_trace (ck : Vase.Checkers) (mf : Int)
    (st : Vase.RunnerState) (op : Vase.CacheOp) :
    (Vase.stepOp ck mf st op).resolved ++
      (Vase.stepOp ck mf st op).variant_cache.output_ready ++
      (Vase.stepOp ck mf st op).variant_cache.cache =
    (st.resolved ++ st.variant_cache.output_ready ++
      st.variant_cache.cache) ++
      (match op with
       | .add r co =>
          [(st.variant_cache.nextTag, Vase.CachedVariant.init r co)]
       | .check _ => []
       | .flush _ => []) ∧
    (Vase.stepOp ck mf st op).variant_cache.nextTag =
      st.variant_cache.nextTag +
      (match op with
       | .add _ _ => 1
       | .check _ => 0
       | .flush _ => 0) := by
  cases op with
  | add r co =>
    by_cases h : st.variant_cache.features ≠ ∅ ∧
        recordFeats r ∩ st.variant_cache.features = ∅ <;>
      simp [Vase.stepOp, Vase.VariantCache.add_record,
        Vase.VariantCache.add_cache_to_output_ready, h, List.append_assoc]
  | check r =>
    by_cases h : st.variant_cache.features ≠ ∅ ∧
        recordFeats r ∩ st.variant_cache.features = ∅ <;>
      simp [Vase.stepOp, Vase.VariantCache.check_record,
        Vase.VariantCache.add_cache_to_output_ready, h, List.append_assoc]
  | flush f =>
    cases f <;>
      simp [Vase.stepOp, Vase.output_cache, outputReadyLoop_spec,
        Vase.VariantCache.add_cache_to_output_ready, List.append_assoc]

/-- Running a trace from any state appends exactly the entries its `add`
operations construct (tags counted from the state's counter). -/
theorem foldl_stepOp_trace (ck : Vase.Checkers) (mf : Int) :
    ∀ (ops : List Vase.CacheOp) (st : Vase.RunnerState),
    (ops.foldl (Vase.stepOp ck mf) st).resolved ++
      (ops.foldl (Vase.stepOp ck mf) st).variant_cache.output_ready ++
      (ops.foldl (Vase.stepOp ck mf) st).variant_cache.cache =
    (st.resolved ++ st.variant_cache.output_ready ++
      st.variant_cache.cache) ++
      Vase.addsFrom st.variant_cache.nextTag ops
  | [], st => by simp [Vase.addsFrom]
  | op :: rest, st => by
    have hstep := stepOp_trace ck mf st op
    have ih := foldl_stepOp_trace ck mf rest (Vase.stepOp ck mf st op)
    rw [List.foldl_cons, ih, hstep.1, hstep.2]
    cases op <;> simp [Vase.addsFrom, List.append_assoc]

/-- Every tag in `addsFrom n ops` is at least `n`. -/
theorem addsFrom_tags_ge (ops : List Vase.CacheOp) :
    ∀ (n : Nat), ∀ t ∈ (Vase.addsFrom n ops).map Prod.fst, n ≤ t := by
  induction ops with
  | nil => intro n t ht; simp [Vase.addsFrom] at ht
  | cons op rest ih =>
    cases op with
    | add r co =>
      intro n t ht
      simp only [Vase.addsFrom, List.map_cons, List.mem_cons] at ht
      rcases ht with h | h
      · omega
      · have := ih (n + 1) t h
        omega
    | check r =>
      intro n t ht
      exact ih n t (by simpa [Vase.addsFrom] using ht)
    | flush f =>
      intro n t ht
      exact ih n t (by simpa [Vase.addsFrom] using ht)

/-- The tags of `addsFrom n ops` are distinct. -/
theorem addsFrom_tags_nodup (ops : List Vase.CacheOp) :
    ∀ (n : Nat), ((Vase.addsFrom n ops).map Prod.fst).Nodup := by
  induction ops with
  | nil => intro n; simp [Vase.addsFrom]
  | cons op rest ih =>
    cases op with
    | add r co =>
      intro n
      simp only [Vase.addsFrom, List.map_cons]
      refine List.nodup_cons.mpr ⟨fun h => ?_, ih (n + 1)⟩
      have := addsFrom_tags_ge rest (n + 1) n h
      omega
    | check r => intro n; simpa [Vase.addsFrom] using ih n
    | flush f => intro n; simpa [Vase.addsFrom] using ih n

/-- C2: after any sequence of cache operations from the initial state, the
cache and output-ready lists are disjoint (no tagged record object is in
both), and together with the already-settled records they contain exactly
the records added so far — no cached record is silently lost by a
window close or flush. -/
theorem C2_cache_output_ready_conservation (ck : Vase.Checkers) (mf : Int)
    (ops : List Vase.CacheOp) :
    List.Disjoint
      ((Vase.runOps ck mf ops).variant_cache.cache.map Prod.fst)
      ((Vase.runOps ck mf ops).variant_cache.output_ready.map Prod.fst) ∧
    (Vase.runOps ck mf ops).resolved ++
      (Vase.runOps ck mf ops).variant_cache.output_ready ++
      (Vase.runOps ck mf ops).variant_cache.cache = Vase.addsOf ops := by
  have htr := foldl_stepOp_trace ck mf ops Vase.RunnerState.init
  have heq : (Vase.runOps ck mf ops).resolved ++
      (Vase.runOps ck mf ops).variant_cache.output_ready ++
      (Vase.runOps ck mf ops).variant_cache.cache = Vase.addsOf ops := by
    simpa [Vase.runOps, Vase.RunnerState.init, Vase.VariantCache.init,
      Vase.addsOf] using htr
  refine ⟨?_, heq⟩
  have hnd : ((Vase.addsOf ops).map Prod.fst).Nodup :=
    addsFrom_tags_nodup ops 0
  rw [← heq] at hnd
  rw [List.map_append, List.map_append] at hnd
  obtain ⟨hab, -, hdisj⟩ := List.nodup_append.mp hnd
  intro t htc hto
  exact hdisj (List.mem_append_right _ hto) htc

/-! ## Claim C7: dropping vs. raising on zero-eligible models -/

/-- Counterexample to C7 as stated: with `--dominant` plus a
`--singleton_recessive` sample list (and nothing else), a dominant model
with zero eligible samples is *not* dropped with a warning even though
another inheritance model (recessive, via the singleton option) was also
requested and is viable — initialisation raises and the run aborts. -/
theorem C7_counterexample :
    VaseInit.dominantRequested
      { de_novo := false, biallelic := false, dominant := true,
        singleton_recessive := true, singleton_dominant := false } = true ∧
    VaseInit.recessiveRequested
      { de_novo := false, biallelic := false, dominant := true,
        singleton_recessive := true, singleton_dominant := false } = true ∧
    VaseInit.initInheritanceFilters
      { de_novo := false, biallelic := false, dominant := true,
        singleton_recessive := true, singleton_dominant := false }
      false true false = .error .noDominantSamples :=
  ⟨rfl, rfl, rfl⟩

/-- C7 amended: a requested model with zero eligible samples is dropped
(filter left unset, construction continues) exactly when one of the
*other two* models was requested through its primary command-line flag
(`--biallelic`/`--dominant` for de novo, `--de_novo`/`--dominant` for
recessive, `--biallelic`/`--de_novo` for dominant); singleton options do
not count, and otherwise the constructor raises.  And whenever at least
one model is requested and every requested model has zero eligible
samples, inheritance-filter initialisation (which runs before any record
is processed) raises an exception. -/
theorem C7_amended_drop_vs_raise :
    (∀ dn bi dom sr sd : Bool,
      VaseInit.getDeNovoFilter ⟨dn, bi, dom, sr, sd⟩ false =
        (if bi || dom then .ok false else .error .noDeNovoSamples) ∧
      VaseInit.getRecessiveFilter ⟨dn, bi, dom, sr, sd⟩ false =
        (if dn || dom then .ok false else .error .noRecessiveSamples) ∧
      VaseInit.getDominantFilter ⟨dn, bi, dom, sr, sd⟩ false =
        (if bi || dn then .ok false else .error .noDominantSamples) ∧
      VaseInit.getDeNovoFilter ⟨dn, bi, dom, sr, sd⟩ true = .ok true ∧
      VaseInit.getRecessiveFilter ⟨dn, bi, dom, sr, sd⟩ true = .ok true ∧
      VaseInit.getDominantFilter ⟨dn, bi, dom, sr, sd⟩ true = .ok true) ∧
    (∀ dn bi dom sr sd : Bool,
      (VaseInit.deNovoRequested ⟨dn, bi, dom, sr, sd⟩ ||
        VaseInit.recessiveRequested ⟨dn, bi, dom, sr, sd⟩ ||
        VaseInit.dominantRequested ⟨dn, bi, dom, sr, sd⟩) = true →
      (VaseInit.initInheritanceFilters ⟨dn, bi, dom, sr, sd⟩
        false false false).isOk = false) := by
  constructor
  · intro dn bi dom sr sd
    cases dn <;> cases bi <;> cases dom <;>
      exact ⟨rfl, rfl, rfl, rfl, rfl, rfl⟩
  · intro dn bi dom sr sd h
    cases dn <;> cases bi <;> cases dom <;> cases sr <;> cases sd <;>
      first
        | rfl
        | simp_all [VaseInit.deNovoRequested, VaseInit.recessiveRequested,
            VaseInit.dominantRequested]

/-- Witness for the amended C7: all three models requested by primary
flags with zero eligible samples each — initialisation fails. -/
theorem C7_amended_witness :
    (VaseInit.initInheritanceFilters
      { de_novo := true, biallelic := true, dominant := true,
        singleton_recessive := false, singleton_dominant := false }
      false false false).isOk = false :=
  C7_amended_drop_vs_raise.2 true true true false false (by decide)

/-! ## Claim C8: family-ID propagation and sibling symmetry -/

/-- `lookupA` misses exactly when no entry has the key. -/
theorem lookupA_eq_none_iff {α : Type} (l : List (String × α)) (k : String) :
    lookupA l k = none ↔ ∀ p ∈ l, p.1 ≠ k := by
  unfold lookupA
  cases h : l.find? (fun p => decide (p.1 = k)) with
  | none =>
    simp only [List.find?_eq_none] at h
    simpa using h
  | some p =>
    have hmem := List.mem_of_find?_eq_some h
    have hpred := List.find?_some h
    simp only [decide_eq_true_eq] at hpred
    constructor
    · intro hc; cases hc
    · intro hall; exact absurd hpred (hall p hmem)

/-- With distinct keys, `lookupA` finds each stored entry. -/
theorem lookupA_of_mem_nodup {α : Type} (l : List (String × α))
    (hnd : (l.map Prod.fst).Nodup) (p : String × α) (hp : p ∈ l) :
    lookupA l p.1 = some p.2 := by
  induction l with
  | nil => cases hp
  | cons q rest ih =>
    rw [List.map_cons, List.nodup_cons] at hnd
    rcases List.mem_cons.mp hp with rfl | hp'
    · unfold lookupA
      rw [List.find?_cons_of_pos _ (by simp)]
    · have hq : ¬ (q.1 = p.1) := by
        intro he
        exact hnd.1 (he ▸ List.mem_map_of_mem Prod.fst hp')
      unfold lookupA
      rw [List.find?_cons_of_neg _ (by simpa using hq)]
      exact ih hnd.2 hp'

/-- Field-level description of the per-member sibling update. -/
theorem updIndiv_fields (i ind : Individual) :
    (updIndiv i ind).iid = i.iid ∧ (updIndiv i ind).fid = i.fid ∧
    (updIndiv i ind).mother = i.mother ∧
    (updIndiv i ind).father = i.father ∧
    (updIndiv i ind).children = i.children ∧
    (updIndiv i ind).siblings =
      i.siblings ++ (if sibCond i ind then [SibVal.id ind.iid] else []) ∧
    (updIndiv i ind).half_siblings =
      i.half_siblings ++
        (if !sibCond i ind && halfCond i ind then [SibVal.id ind.iid]
         else []) := by
  unfold updIndiv
  by_cases h1 : sibCond i ind = true
  · simp [h1]
  · by_cases h2 : halfCond i ind = true <;>
      simp [h1, h2, Bool.not_eq_true _ ▸ h1]

/-- Unfolding of `sibView` equality into field equalities. -/
theorem sibView_eq_iff (p q : String × Individual) :
    sibView p = sibView q ↔
      (p.1 = q.1 ∧ p.2.iid = q.2.iid ∧ p.2.fid = q.2.fid ∧
        p.2.mother = q.2.mother ∧ p.2.father = q.2.father ∧
        p.2.siblings = q.2.siblings ∧
        p.2.half_siblings = q.2.half_siblings) := by
  simp [sibView, Prod.ext_iff]

/-- Closed form of the sibling loop: every member is updated by
`updIndiv`, and the incoming individual accumulates the IDs of its full
siblings and (separately) of its half siblings, in member order. -/
theorem sibPass_spec : ∀ (ms : List (String × Individual))
    (ind : Individual),
    sibPass ms ind =
      (ms.map (fun p => (p.1, updIndiv p.2 ind)),
       { ind with
          siblings := ind.siblings ++
            (ms.filter (fun p => sibCond p.2 ind)).map
              (fun p => SibVal.id p.2.iid),
          half_siblings := ind.half_siblings ++
            (ms.filter (fun p => !sibCond p.2 ind && halfCond p.2 ind)).map
              (fun p => SibVal.id p.2.iid) })
  | [], ind => by simp [sibPass]
  | p :: rest, ind => by
    by_cases h1 : sibCond p.2 ind = true
    · have ih := sibPass_spec rest
        { ind with siblings := ind.siblings ++ [.id p.2.iid] }
      simp only [sibPass, h1, if_true]
      rw [ih]
      refine Prod.ext ?_ ?_
      · simp only [List.map_cons]
        congr 1
        simp [updIndiv, h1]
      · simp [List.filter_cons, h1, List.append_assoc]
        exact ⟨rfl, rfl⟩
    · by_cases h2 : halfCond p.2 ind = true
      · have ih := sibPass_spec rest
          { ind with half_siblings := ind.half_siblings ++ [.id p.2.iid] }
        simp only [sibPass, h1, h2, if_true, Bool.false_eq_true, if_false]
        rw [ih]
        refine Prod.ext ?_ ?_
        · simp only [List.map_cons]
          congr 1
          simp [updIndiv, h1, h2]
        · simp [List.filter_cons, h1, h2, List.append_assoc]
          exact ⟨rfl, rfl⟩
      · have ih := sibPass_spec rest ind
        simp only [sibPass, h1, h2, Bool.false_eq_true, if_false]
        rw [ih]
        refine Prod.ext ?_ ?_
        · simp only [List.map_cons]
          congr 1
          simp [updIndiv, h1, h2]
        · simp [List.filter_cons, h1, h2]

/-- The parent/children bookkeeping of `add_individual` never changes the
sibling view of the member table (it only rewrites `children` fields),
provided keys are distinct. -/
theorem addParentStep_sibView (inds : List (String × Individual))
    (ps : List (String × List String)) (parent iid : String)
    (hnd : (inds.map Prod.fst).Nodup) :
    ((addParentStep (inds, ps) parent iid).1).map sibView =
      inds.map sibView := by
  unfold addParentStep
  by_cases h0 : parent = "0"
  · rw [if_pos h0]
  · rw [if_neg h0]
    cases hlook : lookupA inds parent with
    | none => simp [hlook]
    | some pi =>
      simp only [hlook]
      unfold updateA
      rw [List.map_map]
      refine List.map_congr_left ?_
      intro q hq
      by_cases hqp : q.1 = parent
      · have hl : lookupA inds q.1 = some q.2 :=
          lookupA_of_mem_nodup inds hnd q hq
        rw [hqp, hlook] at hl
        have hpi : pi = q.2 := Option.some.inj hl
        subst hpi
        simp [Function.comp, hqp, sibView]
      · simp [Function.comp, hqp]

/-- Key preservation by the parent/children bookkeeping. -/
theorem addParentStep_keys (inds : List (String × Individual))
    (ps : List (String × List String)) (parent iid : String)
    (hnd : (inds.map Prod.fst).Nodup) :
    ((addParentStep (inds, ps) parent iid).1).map Prod.fst =
      inds.map Prod.fst := by
  have h := addParentStep_sibView inds ps parent iid hnd
  have h1 : ((addParentStep (inds, ps) parent iid).1).map Prod.fst =
      (((addParentStep (inds, ps) parent iid).1).map sibView).map
        (fun v => v.1) := by
    rw [List.map_map]; rfl
  rw [h1, h, List.map_map]; rfl

/-- Core invariant step: appending a fresh individual whose sibling lists
were filled by the sibling loop, after a children-only rewrite of the
member table, preserves the family invariant. -/
theorem famInvL_extend (fid : String) (M S2 : List (String × Individual))
    (ind0 new : Individual) (hinv : FamInvL fid M)
    (hfresh : ∀ p ∈ M, p.2.iid ≠ ind0.iid)
    (hview : S2.map sibView =
      (M.map (fun p => (p.1, updIndiv p.2 ind0))).map sibView)
    (hni : new.iid = ind0.iid) (hnf : new.fid = fid)
    (hns : new.siblings = (M.filter (fun p => sibCond p.2 ind0)).map
      (fun p => SibVal.id p.2.iid))
    (hnh : new.half_siblings =
      (M.filter (fun p => !sibCond p.2 ind0 && halfCond p.2 ind0)).map
        (fun p => SibVal.id p.2.iid)) :
    FamInvL fid (S2 ++ [(new.iid, new)]) := by
  obtain ⟨hkeys, hfids, hnd, hsmem, hhmem, hsym, hhsym⟩ := hinv
  have hS2mem : ∀ p' ∈ S2, ∃ m ∈ M,
      sibView p' = sibView (m.1, updIndiv m.2 ind0) := by
    intro p' hp'
    have hm : sibView p' ∈ S2.map sibView := List.mem_map_of_mem _ hp'
    rw [hview, List.map_map] at hm
    obtain ⟨m, hmM, he⟩ := List.mem_map.mp hm
    exact ⟨m, hmM, he.symm⟩
  have hMmem : ∀ m ∈ M, ∃ p' ∈ S2,
      sibView p' = sibView (m.1, updIndiv m.2 ind0) := by
    intro m hm
    have h1 : sibView (m.1, updIndiv m.2 ind0) ∈
        (M.map (fun p => (p.1, updIndiv p.2 ind0))).map sibView := by
      rw [List.map_map]
      exact List.mem_map_of_mem _ hm
    rw [← hview] at h1
    obtain ⟨p', hp', he⟩ := List.mem_map.mp h1
    exact ⟨p', hp', he⟩
  have hcomp : ∀ (p' : String × Individual) (m : String × Individual),
      sibView p' = sibView (m.1, updIndiv m.2 ind0) →
      p'.1 = m.1 ∧ p'.2.iid = m.2.iid ∧ p'.2.fid = m.2.fid ∧
      p'.2.mother = m.2.mother ∧ p'.2.father = m.2.father ∧
      p'.2.siblings = m.2.siblings ++
        (if sibCond m.2 ind0 then [SibVal.id ind0.iid] else []) ∧
      p'.2.half_siblings = m.2.half_siblings ++
        (if !sibCond m.2 ind0 && halfCond m.2 ind0 then
          [SibVal.id ind0.iid] else []) := by
    intro p' m hv
    obtain ⟨h1, h2, h3, h4, h5, h6, h7⟩ := (sibView_eq_iff _ _).mp hv
    obtain ⟨u1, u2, u3, u4, -, u6, u7⟩ := updIndiv_fields m.2 ind0
    exact ⟨h1, h2.trans u1, h3.trans u2, h4.trans u3, h5.trans u4,
      h6.trans u6, h7.trans u7⟩
  have hnotins : ∀ m ∈ M, SibVal.id ind0.iid ∉ m.2.siblings := by
    intro m hm hcontra
    obtain ⟨q, hq, he⟩ := hsmem m hm _ hcontra
    exact hfresh q hq (SibVal.id.inj he).symm
  have hnotinh : ∀ m ∈ M, SibVal.id ind0.iid ∉ m.2.half_siblings := by
    intro m hm hcontra
    obtain ⟨q, hq, he⟩ := hhmem m hm _ hcontra
    exact hfresh q hq (SibVal.id.inj he).symm
  have hexpand : ∀ (l : List SibVal) (c : Bool) (x : String),
      x ≠ ind0.iid →
      (SibVal.id x ∈ l ++ (if c then [SibVal.id ind0.iid] else []) ↔
        SibVal.id x ∈ l) := by
    intro l c x hx
    cases c <;> simp [hx]
  have hiids : S2.map (fun p => p.2.iid) = M.map (fun p => p.2.iid) := by
    have h1 : S2.map (fun p => p.2.iid) =
        (S2.map sibView).map (fun v => v.2.1) := by
      rw [List.map_map]; rfl
    rw [h1, hview, List.map_map, List.map_map]
    exact List.map_congr_left (fun m _ => (updIndiv_fields m.2 ind0).1)
  have hfind : ∀ m ∈ M, ∃ q ∈ S2, q.2.iid = m.2.iid := by
    intro m hm
    obtain ⟨p', hp', hv⟩ := hMmem m hm
    exact ⟨p', hp', (hcomp p' m hv).2.1⟩
  refine ⟨?_, ?_, ?_, ?_, ?_, ?_, ?_⟩
  · -- keys agree with ids
    intro p hp
    rcases List.mem_append.mp hp with hp | hp
    · obtain ⟨m, hm, hv⟩ := hS2mem p hp
      have hc := hcomp p m hv
      rw [hc.1, hc.2.1]
      exact hkeys m hm
    · rw [List.mem_singleton.mp hp]
  · -- family ids
    intro p hp
    rcases List.mem_append.mp hp with hp | hp
    · obtain ⟨m, hm, hv⟩ := hS2mem p hp
      rw [(hcomp p m hv).2.2.1]
      exact hfids m hm
    · rw [List.mem_singleton.mp hp]
      exact hnf
  · -- distinct ids
    rw [List.map_append, List.map_singleton, hiids]
    have hnotin : new.iid ∉ M.map (fun p => p.2.iid) := by
      intro hmem
      obtain ⟨m, hm, he⟩ := List.mem_map.mp hmem
      exact hfresh m hm (he.trans hni)
    refine (List.nodup_append).mpr ⟨hnd, List.nodup_singleton _, ?_⟩
    intro a haM hasing
    rw [List.mem_singleton.mp hasing] at haM
    exact hnotin haM
  · -- sibling entries point at members
    intro p hp e he
    rcases List.mem_append.mp hp with hp | hp
    · obtain ⟨m, hm, hv⟩ := hS2mem p hp
      rw [(hcomp p m hv).2.2.2.2.2.1] at he
      rcases List.mem_append.mp he with he | he
      · obtain ⟨q0, hq0, he0⟩ := hsmem m hm e he
        obtain ⟨q, hq, hqi⟩ := hfind q0 hq0
        exact ⟨q, List.mem_append_left _ hq, by rw [he0, hqi]⟩
      · refine ⟨(new.iid, new), List.mem_append_right _ (by simp), ?_⟩
        rcases hc : sibCond m.2 ind0 <;> rw [hc] at he <;> simp at he
        rw [he, hni]
    · rw [List.mem_singleton.mp hp] at he
      rw [hns] at he
      obtain ⟨m, hm, he0⟩ := List.mem_map.mp he
      obtain ⟨q, hq, hqi⟩ := hfind m (List.mem_filter.mp hm).1
      exact ⟨q, List.mem_append_left _ hq, by rw [← he0, hqi]⟩
  · -- half-sibling entries point at members
    intro p hp e he
    rcases List.mem_append.mp hp with hp | hp
    · obtain ⟨m, hm, hv⟩ := hS2mem p hp
      rw [(hcomp p m hv).2.2.2.2.2.2] at he
      rcases List.mem_append.mp he with he | he
      · obtain ⟨q0, hq0, he0⟩ := hhmem m hm e he
        obtain ⟨q, hq, hqi⟩ := hfind q0 hq0
        exact ⟨q, List.mem_append_left _ hq, by rw [he0, hqi]⟩
      · refine ⟨(new.iid, new), List.mem_append_right _ (by simp), ?_⟩
        rcases hc : !sibCond m.2 ind0 && halfCond m.2 ind0 <;>
          rw [hc] at he <;> simp at he
        rw [he, hni]
    · rw [List.mem_singleton.mp hp] at he
      rw [hnh] at he
      obtain ⟨m, hm, he0⟩ := List.mem_map.mp he
      obtain ⟨q, hq, hqi⟩ := hfind m (List.mem_filter.mp hm).1
      exact ⟨q, List.mem_append_left _ hq, by rw [← he0, hqi]⟩
  · -- sibling symmetry
    intro p hp q hq
    rcases List.mem_append.mp hp with hp | hp <;>
      rcases List.mem_append.mp hq with hq | hq
    · obtain ⟨mp, hmp, hvp⟩ := hS2mem p hp
      obtain ⟨mq, hmq, hvq⟩ := hS2mem q hq
      have cp := hcomp p mp hvp
      have cq := hcomp q mq hvq
      rw [cp.2.1, cq.2.1, cp.2.2.2.2.2.1, cq.2.2.2.2.2.1,
        hexpand _ _ _ (hfresh mp hmp), hexpand _ _ _ (hfresh mq hmq)]
      exact hsym mp hmp mq hmq
    · rw [List.mem_singleton.mp hq]
      obtain ⟨mp, hmp, hvp⟩ := hS2mem p hp
      have cp := hcomp p mp hvp
      rw [cp.2.1, cp.2.2.2.2.2.1, hni, hns]
      constructor
      · intro h
        obtain ⟨m, hm, he⟩ := List.mem_map.mp h
        obtain ⟨hmM, hc⟩ := List.mem_filter.mp hm
        have hmmp : m = mp :=
          List.inj_on_of_nodup_map hnd hmM hmp (SibVal.id.inj he)
        subst hmmp
        rw [if_pos hc]
        simp
      · intro h
        rcases hc : sibCond mp.2 ind0 with - | -
        · rw [hc] at h
          simp at h
          exact absurd h (hnotins mp hmp)
        · rw [hc] at h
          exact List.mem_map_of_mem _ (List.mem_filter.mpr ⟨hmp, hc⟩)
    · rw [List.mem_singleton.mp hp]
      obtain ⟨mq, hmq, hvq⟩ := hS2mem q hq
      have cq := hcomp q mq hvq
      rw [cq.2.1, cq.2.2.2.2.2.1, hni, hns]
      constructor
      · intro h
        rcases hc : sibCond mq.2 ind0 with - | -
        · rw [hc] at h
          simp at h
          exact absurd h (hnotins mq hmq)
        · rw [hc] at h
          exact List.mem_map_of_mem _ (List.mem_filter.mpr ⟨hmq, hc⟩)
      · intro h
        obtain ⟨m, hm, he⟩ := List.mem_map.mp h
        obtain ⟨hmM, hc⟩ := List.mem_filter.mp hm
        have hmmq : m = mq :=
          List.inj_on_of_nodup_map hnd hmM hmq (SibVal.id.inj he)
        subst hmmq
        rw [if_pos hc]
        simp
    · rw [List.mem_singleton.mp hp, List.mem_singleton.mp hq]
  · -- half-sibling symmetry
    intro p hp q hq
    rcases List.mem_append.mp hp with hp | hp <;>
      rcases List.mem_append.mp hq with hq | hq
    · obtain ⟨mp, hmp, hvp⟩ := hS2mem p hp
      obtain ⟨mq, hmq, hvq⟩ := hS2mem q hq
      have cp := hcomp p mp hvp
      have cq := hcomp q mq hvq
      rw [cp.2.1, cq.2.1, cp.2.2.2.2.2.2, cq.2.2.2.2.2.2,
        hexpand _ _ _ (hfresh mp hmp), hexpand _ _ _ (hfresh mq hmq)]
      exact hhsym mp hmp mq hmq
    · rw [List.mem_singleton.mp hq]
      obtain ⟨mp, hmp, hvp⟩ := hS2mem p hp
      have cp := hcomp p mp hvp
      rw [cp.2.1, cp.2.2.2.2.2.2, hni, hnh]
      constructor
      · intro h
        obtain ⟨m, hm, he⟩ := List.mem_map.mp h
        obtain ⟨hmM, hc⟩ := List.mem_filter.mp hm
        have hmmp : m = mp :=
          List.inj_on_of_nodup_map hnd hmM hmp (SibVal.id.inj he)
        subst hmmp
        rw [if_pos hc]
        simp
      · intro h
        rcases hc : !sibCond mp.2 ind0 && halfCond mp.2 ind0 with - | -
        · rw [hc] at h
          simp at h
          exact absurd h (hnotinh mp hmp)
        · rw [hc] at h
          exact List.mem_map_of_mem _ (List.mem_filter.mpr ⟨hmp, hc⟩)
    · rw [List.mem_singleton.mp hp]
      obtain ⟨mq, hmq, hvq⟩ := hS2mem q hq
      have cq := hcomp q mq hvq
      rw [cq.2.1, cq.2.2.2.2.2.2, hni, hnh]
      constructor
      · intro h
        rcases hc : !sibCond mq.2 ind0 && halfCond mq.2 ind0 with - | -
        · rw [hc] at h
          simp at h
          exact absurd h (hnotinh mq hmq)
        · rw [hc] at h
          exact List.mem_map_of_mem _ (List.mem_filter.mpr ⟨hmq, hc⟩)
      · intro h
        obtain ⟨m, hm, he⟩ := List.mem_map.mp h
        obtain ⟨hmM, hc⟩ := List.mem_filter.mp hm
        have hmmq : m = mq :=
          List.inj_on_of_nodup_map hnd hmM hmq (SibVal.id.inj he)
        subst hmmq
        rw [if_pos hc]
        simp
    · rw [List.mem_singleton.mp hp, List.mem_singleton.mp hq]

/-- `Family.add_individual` preserves the family invariant when the added
individual arrives with empty sibling lists, and never changes the
family's ID. -/
theorem add_individual_inv (fam : Family) (ind : Individual)
    (fam' : Family) (hinv : FamInv fam) (hsib : ind.siblings = [])
    (hhalf : ind.half_siblings = [])
    (hok : fam.add_individual ind = .ok fam') :
    FamInv fam' ∧ fam'.fid = fam.fid := by
  have hndk : (fam.individuals.map Prod.fst).Nodup := by
    have he : fam.individuals.map Prod.fst =
        fam.individuals.map (fun p => p.2.iid) :=
      List.map_congr_left (fun p hp => hinv.1 p hp)
    rw [he]
    exact hinv.2.2.1
  unfold Family.add_individual at hok
  by_cases hdup : (lookupA fam.individuals ind.iid).isSome = true
  · rw [if_pos hdup] at hok
    cases hok
  · rw [if_neg hdup] at hok
    have hnone : lookupA fam.individuals ind.iid = none := by
      cases h : lookupA fam.individuals ind.iid with
      | none => rfl
      | some v => rw [h] at hdup; simp at hdup
    have hfresh : ∀ p ∈ fam.individuals, p.2.iid ≠ ind.iid := by
      intro p hp he
      exact ((lookupA_eq_none_iff _ _).mp hnone) p hp
        ((hinv.1 p hp).trans he)
    rw [sibPass_spec] at hok
    simp only [] at hok
    have hfam' := (Except.ok.inj hok).symm
    subst hfam'
    refine ⟨?_, rfl⟩
    have hN : ((fam.individuals.map
        (fun p => (p.1, updIndiv p.2 { ind with fid := fam.fid }))).map
          Prod.fst) = fam.individuals.map Prod.fst := by
      rw [List.map_map]; rfl
    have hv1 := addParentStep_sibView
      (fam.individuals.map
        (fun p => (p.1, updIndiv p.2 { ind with fid := fam.fid })))
      fam.parents ind.mother ind.iid (by rw [hN]; exact hndk)
    have hk1 := addParentStep_keys
      (fam.individuals.map
        (fun p => (p.1, updIndiv p.2 { ind with fid := fam.fid })))
      fam.parents ind.mother ind.iid (by rw [hN]; exact hndk)
    have hv2 := addParentStep_sibView
      ((addParentStep
        ((fam.individuals.map
          (fun p => (p.1, updIndiv p.2 { ind with fid := fam.fid }))),
          fam.parents) ind.mother ind.iid).1)
      ((addParentStep
        ((fam.individuals.map
          (fun p => (p.1, updIndiv p.2 { ind with fid := fam.fid }))),
          fam.parents) ind.mother ind.iid).2)
      ind.father ind.iid (by rw [hk1, hN]; exact hndk)
    refine famInvL_extend fam.fid fam.individuals _
      { ind with fid := fam.fid } _ hinv hfresh ?_ ?_ ?_ ?_ ?_
    · exact hv2.trans hv1
    · split <;> rfl
    · split <;> rfl
    · split <;> simp [hsib]
    · split <;> simp [hhalf]

/-- Adding a list of individuals with empty sibling lists one by one
(`Family.__init__`) preserves the family invariant and the family ID. -/
theorem initFold_inv : ∀ (inds : List Individual) (fam : Family),
    FamInv fam → (∀ i ∈ inds, i.siblings = [] ∧ i.half_siblings = []) →
    ∀ fam', inds.foldlM (fun f i => f.add_individual i) fam = .ok fam' →
    FamInv fam' ∧ fam'.fid = fam.fid
  | [], fam => by
    intro hinv hempty fam' hok
    rw [List.foldlM_nil] at hok
    have h := Except.ok.inj hok
    rw [← h]
    exact ⟨hinv, rfl⟩
  | i :: rest, fam => by
    intro hinv hempty fam' hok
    rw [List.foldlM_cons] at hok
    cases hadd : fam.add_individual i with
    | error e =>
      rw [hadd] at hok
      cases hok
    | ok fam1 =>
      rw [hadd] at hok
      have hok2 : rest.foldlM (fun f i => f.add_individual i) fam1 =
          .ok fam' := hok
      obtain ⟨h1, h2⟩ := add_individual_inv fam i fam1 hinv
        (hempty i (by simp)).1 (hempty i (by simp)).2 hadd
      obtain ⟨h3, h4⟩ := initFold_inv rest fam1 h1
        (fun j hj => hempty j (by simp [hj])) fam' hok2
      exact ⟨h3, h4.trans h2⟩

/-- C8: after any sequence of `add_individual` calls on a fresh family
(each individual arriving with empty sibling lists, as those built by
`_parse_ped` do), every member's family identifier equals the family's
identifier, and the sibling and half-sibling relations between members
are symmetric. -/
theorem C8_family_fid_and_sibling_symmetry (fid : String)
    (inds : List Individual) (fam : Family)
    (hempty : ∀ i ∈ inds, i.siblings = [] ∧ i.half_siblings = [])
    (hok : Family.initList fid inds = .ok fam) :
    (∀ p ∈ fam.individuals, p.2.fid = fam.fid) ∧
    (∀ p ∈ fam.individuals, ∀ q ∈ fam.individuals,
      (SibVal.id p.2.iid ∈ q.2.siblings ↔
        SibVal.id q.2.iid ∈ p.2.siblings)) ∧
    (∀ p ∈ fam.individuals, ∀ q ∈ fam.individuals,
      (SibVal.id p.2.iid ∈ q.2.half_siblings ↔
        SibVal.id q.2.iid ∈ p.2.half_siblings)) := by
  have hbase : FamInv (Family.mkEmpty fid) := by
    refine ⟨?_, ?_, ?_, ?_, ?_, ?_, ?_⟩ <;> simp [Family.mkEmpty]
  obtain ⟨hinv, -⟩ := initFold_inv inds (Family.mkEmpty fid) hbase hempty
    fam hok
  exact ⟨hinv.2.1, hinv.2.2.2.2.2.1, hinv.2.2.2.2.2.2⟩

/-- Witness for C8 on a concrete pedigree: `a` and `b` share both parents
(full siblings), `c` shares only the father (half sibling of both); the
relations come out symmetric and every member carries the family ID. -/
theorem C8_witness :
    Family.initList "f1" [c8A, c8B, c8C] = .ok c8Fam ∧
    c8AFin.fid = c8Fam.fid ∧
    (SibVal.id c8AFin.iid ∈ c8BFin.siblings ↔
      SibVal.id c8BFin.iid ∈ c8AFin.siblings) ∧
    (SibVal.id c8CFin.iid ∈ c8AFin.half_siblings ↔
      SibVal.id c8AFin.iid ∈ c8CFin.half_siblings) ∧
    SibVal.id c8AFin.iid ∈ c8BFin.siblings ∧
    SibVal.id c8AFin.iid ∈ c8CFin.half_siblings := by
  have hok : Family.initList "f1" [c8A, c8B, c8C] = .ok c8Fam := by rfl
  have h := C8_family_fid_and_sibling_symmetry "f1" [c8A, c8B, c8C] c8Fam
    (by decide) hok
  refine ⟨hok, ?_, ?_, ?_, by decide, by decide⟩
  · exact h.1 ("a", c8AFin) (by decide)
  · exact h.2.1 ("a", c8AFin) (by decide) ("b", c8BFin) (by decide)
  · exact h.2.2 ("c", c8CFin) (by decide) ("a", c8AFin) (by decide)
